import Mathlib

/-!
# Verification of the automated-info-pipeline cleaning engine

Shallow embedding of the field-mapping and normalization engine of the
repository (`src/data_cleaner.py`, `app.py`, `src/field_config.py`),
together with theorems settling the specification claims about it.

Tables are modelled column-wise as lists of cell values (strings, as the
cleaner coerces columns with `astype(str)` or feeds object columns to
`pd.to_numeric`); numbers are modelled as exact decimals (`Dec`),
calendar timestamps as integer day numbers (days since 1970-01-01), and
the pandas missing marker (`NaN`) as `Option.none`.
-/

namespace InfoPipeline

/-! ## String utilities

`leadsWith` / `containsSub` embed Python's substring operator `in`;
`strContainsSub hay needle` is `needle in hay` on `str`.
-/

/-- `leadsWith n h` is true when `n` is an initial segment of `h`. -/
def leadsWith : List Char → List Char → Bool
  | [], _ => true
  | _ :: _, [] => false
  | a :: as, b :: bs => a == b && leadsWith as bs

/-- `containsSub n h` is true when `n` occurs contiguously inside `h`
(Python's `n in h`; the empty needle always matches). -/
def containsSub (needle : List Char) : List Char → Bool
  | [] => needle.isEmpty
  | c :: t => leadsWith needle (c :: t) || containsSub needle t

/-- Python's `needle in hay` on strings. -/
def strContainsSub (hay needle : String) : Bool :=
  containsSub needle.data hay.data

/-- Embedding of `str.strip()`: drop whitespace from both ends. -/
def strStrip (s : String) : String :=
  ⟨((s.data.dropWhile Char.isWhitespace).reverse.dropWhile Char.isWhitespace).reverse⟩

/-- ASCII lower-casing of one character (`str.lower()` per character; the
corpus of field keywords is ASCII or Chinese, and Chinese characters are
fixed by lower-casing). -/
def charLower (c : Char) : Char :=
  if 'A' ≤ c && c ≤ 'Z' then Char.ofNat (c.toNat + 32) else c

/-- Embedding of `str.lower()`. -/
def strLower (s : String) : String :=
  ⟨s.data.map charLower⟩

/-- Split a character list on a separator character (used to parse
decimal points and date separators). -/
def splitOnChar (sep : Char) : List Char → List (List Char)
  | [] => [[]]
  | c :: t =>
    if c == sep then [] :: splitOnChar sep t
    else
      match splitOnChar sep t with
      | h :: r => (c :: h) :: r
      | [] => [[c]]

/-! ## Numeric values

Pandas stores coerced numbers as floats; every number the cleaner
produces is an exact decimal, so floats are modelled by the exact
decimal type `Dec` (`num / 10 ^ exp`). The parser normalizes (no
trailing fractional zeros), making the representation canonical for its
outputs, and order is by cross-multiplication.
-/

/-- `10 ^ k` as an integer, by structural recursion so the kernel can
evaluate it. -/
def pow10 : Nat → Int
  | 0 => 1
  | n + 1 => 10 * pow10 n

/-- Exact decimal number `num / 10 ^ exp`; the model of a pandas float
cell value. -/
structure Dec where
  num : Int
  exp : Nat
  deriving DecidableEq, Repr

instance : OfNat Dec n := ⟨⟨(n : Nat), 0⟩⟩

instance : LE Dec := ⟨fun a b => a.num * pow10 b.exp ≤ b.num * pow10 a.exp⟩

instance : LT Dec := ⟨fun a b => a.num * pow10 b.exp < b.num * pow10 a.exp⟩

instance (a b : Dec) : Decidable (a ≤ b) :=
  inferInstanceAs (Decidable (a.num * pow10 b.exp ≤ b.num * pow10 a.exp))

instance (a b : Dec) : Decidable (a < b) :=
  inferInstanceAs (Decidable (a.num * pow10 b.exp < b.num * pow10 a.exp))

/-- Decimal digits to a natural number (digit list assumed checked). -/
def digitsVal (s : List Char) : Nat :=
  s.foldl (fun n c => n * 10 + (c.toNat - 48)) 0

/-- Embedding of `pd.to_numeric(cell, errors='coerce')` on one cell:
parses `[+-]? digits [. digits]` (either side of the point may be empty,
but not both), returning the missing marker `none` for anything
unparsable. Scientific notation is not exercised by the data model. -/
def toNumeric (s0 : String) : Option Dec :=
  let s := strStrip s0
  let (sign, body) : Int × List Char :=
    match s.data with
    | '-' :: rest => (-1, rest)
    | '+' :: rest => (1, rest)
    | l => (1, l)
  match splitOnChar '.' body with
  | [ip] =>
    if ip.isEmpty then none
    else if ip.all Char.isDigit then some ⟨sign * (digitsVal ip : Int), 0⟩
    else none
  | [ip, fp] =>
    if ip.isEmpty && fp.isEmpty then none
    else if (ip.all Char.isDigit) && (fp.all Char.isDigit) then
      let fp' := (fp.reverse.dropWhile (· == '0')).reverse
      some ⟨sign * ((digitsVal ip : Int) * pow10 fp'.length + (digitsVal fp' : Int)),
        fp'.length⟩
    else none
  | _ => none

/-! ## Numeric / financial field cleaning (`data_cleaner.py`, lines 106-133) -/

/-- Embedding of `str.replace(r'[$,¥￥,，\s]', '', regex=True)`: removes
currency symbols, ASCII and full-width commas, and whitespace. -/
def stripMoney (s : String) : String :=
  ⟨s.data.filter fun c =>
    !(c == '$' || c == ',' || c == '¥' || c == '￥' || c == '，' || c.isWhitespace)⟩

/-- The financial subtypes that get `fillna(0)` (line 126). -/
def financial_fields : List String := ["TotalPrice", "UnitPrice", "Revenue", "Cost"]

/-- Non-financial numeric coercion: strip symbols, coerce, leave failures
as missing (the `else` path of lines 117-133). -/
def cleanNumericColumn (vals : List String) : List (Option Dec) :=
  vals.map fun v => toNumeric (stripMoney v)

/-- Financial coercion: strip symbols, coerce, then `fillna(0)`
(lines 120-128). -/
def cleanFinancialColumn (vals : List String) : List Dec :=
  (cleanNumericColumn vals).map fun o => o.getD 0

/-! ## Age cleaning (`data_cleaner.py`, lines 136-146) -/

/-- Row-survival predicate of the age filter
`df[(df['Age'] >= 0) & (df['Age'] <= 150)]`: a missing (unparsable) age
satisfies neither comparison, so the row is dropped. -/
def ageRowKept (o : Option Dec) : Bool :=
  match o with
  | some a => decide ((0 : Dec) ≤ a) && decide (a ≤ (150 : Dec))
  | none => false

/-- Embedding of the Age stage: coerce to numeric, then keep exactly the
rows whose (parsed) age lies in `[0, 150]`. The resulting column holds
the surviving numeric ages. -/
def cleanAgeColumn (vals : List String) : List Dec :=
  ((vals.map toNumeric).filter ageRowKept).map fun o => o.getD 0

/-! ## Column mapping (`data_cleaner.py`, lines 62-83)

A table's header is modelled as the list of its column names; a rename
mapping as an association list (a Python `dict` has unique keys, looked
up here with `List.lookup`). `user_mapping = None` is `none`; a supplied
dict is `some`. The duplicated keys of the hardcoded dict literal
(`'城市'`, `'消费金额'` each appear twice with identical values) collapse
in the evaluated dict, so `legacy_mapping` lists each key once.
-/

/-- Join strings with a separator (`', '.join(...)`). -/
def joinSep (sep : String) : List String → String
  | [] => ""
  | [s] => s
  | s :: rest => s ++ sep ++ joinSep sep rest

/-- `df.rename(columns=m)`: every column name found in the mapping is
replaced by its target, all others stay. -/
def renameCols (m : List (String × String)) (cols : List String) : List String :=
  cols.map fun c => (m.lookup c).getD c

/-- The hardcoded legacy mapping of lines 69-81 (after dict-literal
evaluation collapses its duplicate keys). -/
def legacy_mapping : List (String × String) :=
  [("ID", "SaleID"), ("姓名", "CustomerName"), ("年龄", "Age"), ("性别", "Gender"),
   ("邮箱", "Email"), ("注册日期", "OrderDate"), ("城市", "City"),
   ("消费金额", "TotalPrice"), ("薪资", "TotalPrice")]

/-- Log line of the legacy branch (line 83). -/
def defaultMappingLog : String :=
  "Applied default column mapping (backward compatibility mode)."

/-- Log lines of the user-mapping branch (lines 65-66). -/
def userMappingLogs (m : List (String × String)) : List String :=
  let n := toString m.length
  let fields := joinSep ", " (m.map Prod.snd)
  ["Applied user column mapping: " ++ n ++ " columns mapped.",
   "Mapped fields: " ++ fields]

/-- Step 2 of `clean_excel` (lines 62-83): `if user_mapping:` — Python
truthiness, so `None` *and* the empty dict both take the legacy branch —
rename per the chosen mapping and log accordingly. Returns the renamed
header together with the log entries appended by this step. -/
def applyColumnMapping (user_mapping : Option (List (String × String)))
    (cols : List String) : List String × List String :=
  match user_mapping with
  | some m =>
    if !m.isEmpty then
      (renameCols m cols, userMappingLogs m)
    else
      (renameCols legacy_mapping cols, [defaultMappingLog])
  | none => (renameCols legacy_mapping cols, [defaultMappingLog])

/-! ## Post-mapping fallback pass (`data_cleaner.py`, lines 87-96) -/

/-- The fixed fallback set of (alternate-source → canonical-target)
pairs, in iteration order. -/
def fallback_mapping : List (String × String) :=
  [("Wage", "TotalPrice"), ("薪资", "TotalPrice"), ("join_date", "OrderDate")]

/-- `df.rename(columns={src: tgt})` on the header. -/
def renameOne (src tgt : String) (cols : List String) : List String :=
  cols.map fun c => if c == src then tgt else c

/-- Log line for one fallback correction (line 96). -/
def fallbackLog (src tgt : String) : String :=
  "Auto-mapped leftover column '" ++ src ++ "' to '" ++ tgt ++ "' for cleaning."

/-- The fallback pass: for each pair in order, rename the source column
to the target only when the source is present and the target absent,
logging each correction individually. -/
def fallbackPass (cols : List String) : List String × List String :=
  fallback_mapping.foldl
    (fun acc st =>
      if acc.1.contains st.1 && !(acc.1.contains st.2) then
        (renameOne st.1 st.2 acc.1, acc.2 ++ [fallbackLog st.1 st.2])
      else acc)
    (cols, [])

/-- Whether the Wage → TotalPrice pair fires, in terms of the input
header (spec-level description used to state the fallback theorem). -/
def firedWage (cols : List String) : Bool :=
  cols.contains "Wage" && !cols.contains "TotalPrice"

/-- Whether 薪资 → TotalPrice fires: it is skipped when the Wage pair
already reintroduced TotalPrice. -/
def firedSalaryCN (cols : List String) : Bool :=
  cols.contains "薪资" && !cols.contains "TotalPrice" && !cols.contains "Wage"

/-- Whether join_date → OrderDate fires. -/
def firedJoinDate (cols : List String) : Bool :=
  cols.contains "join_date" && !cols.contains "OrderDate"

/-! ## Deduplication (`data_cleaner.py`, lines 327-341)

A row is modelled by its (SaleID, Email, Phone) cells; whether those
columns exist in the table at all is part of the input.
-/

/-- A table as the deduplication stage sees it. -/
structure DedupInput where
  hasSaleID : Bool
  hasEmail : Bool
  hasPhone : Bool
  rows : List (Option String × Option String × Option String)

/-- Key-field selection of lines 328-334: SaleID if present, Email if
present, Phone only if present and `'Email' not in dedup_fields`. -/
def dedup_fields (t : DedupInput) : List String :=
  let l1 : List String := if t.hasSaleID then ["SaleID"] else []
  let l2 : List String := if t.hasEmail then l1 ++ ["Email"] else l1
  if t.hasPhone && !(l2.contains "Email") then l2 ++ ["Phone"] else l2

/-- Projection of a row to the dedup key columns. -/
def rowKey (fields : List String)
    (r : Option String × Option String × Option String) : List (Option String) :=
  fields.map fun f => if f == "SaleID" then r.1 else if f == "Email" then r.2.1 else r.2.2

/-- `df.drop_duplicates(subset=fields, keep='first')`: scan forward,
dropping any row whose key was already seen. -/
def dropDupKeepFirst {α κ : Type} [DecidableEq κ] (key : α → κ) :
    List α → List κ → List α
  | [], _ => []
  | r :: rs, seen =>
    if key r ∈ seen then dropDupKeepFirst key rs seen
    else r :: dropDupKeepFirst key rs (key r :: seen)

/-- The spec's description of keep-first deduplication: keep each row
and drop the later rows sharing its key. -/
def keepFirstSpec {α κ : Type} [DecidableEq κ] (key : α → κ) : List α → List α
  | [] => []
  | r :: rs => r :: keepFirstSpec key (rs.filter fun x => key x != key r)
  termination_by l => l.length
  decreasing_by
    simp only [List.length_cons]
    exact Nat.lt_succ_of_le (List.length_filter_le _ _)

/-- Log line of line 341. -/
def dedupMsg (removed : Nat) (fields : List String) : String :=
  let n := toString removed
  let fs := joinSep ", " fields
  "Removed " ++ n ++ " duplicate records based on: " ++ fs ++ "."

/-- Step 13 of `clean_excel`: skip when no key field is available,
otherwise drop duplicates keeping the first occurrence and log the
removed count when it is positive. Returns the surviving rows and the
log entries appended by this step. -/
def deduplicate (t : DedupInput) : List (Option String × Option String × Option String) × List String :=
  let fields := dedup_fields t
  if fields.isEmpty then (t.rows, [])
  else
    let kept := dropDupKeepFirst (rowKey fields) t.rows []
    let removed := t.rows.length - kept.length
    (kept, if removed > 0 then [dedupMsg removed fields] else [])

/-! ## Date/time cleaning (`data_cleaner.py`, lines 148-222)

Timestamps are modelled as integer day numbers (days since 1970-01-01).
`datetime.now()` becomes a `today : Int` parameter and
`timedelta(days=1)` is `± 1`. `strftime('%Y-%m-%d')` is implemented
concretely (`fmtYMD`), as are the explicit `strptime` formats of lines
175-183; the flexible automatic parser `pd.to_datetime(format='mixed')`
is a parameter `auto` of the stage. Note that line 189 assigns the
coerced result back to the column before the explicit-format retry loop
of lines 195-211 runs, so that loop only ever re-parses `NaT` markers,
never the original strings.
-/

/-- Gregorian calendar date from a day number (civil-from-days
algorithm, floor division). -/
def civilFromDays (z0 : Int) : Int × Int × Int :=
  let z := z0 + 719468
  let era := z.ediv 146097
  let doe := z - era * 146097
  let yoe := (doe - doe.ediv 1460 + doe.ediv 36524 - doe.ediv 146096).ediv 365
  let y := yoe + era * 400
  let doy := doe - (365 * yoe + yoe.ediv 4 - yoe.ediv 100)
  let mp := (5 * doy + 2).ediv 153
  let d := doy - (153 * mp + 2).ediv 5 + 1
  let m := mp + (if mp < 10 then 3 else -9)
  (y + (if m ≤ 2 then 1 else 0), m, d)

/-- Day number of a Gregorian date (days-from-civil algorithm). -/
def daysFromCivil (y m d : Int) : Int :=
  let y' := y - (if m ≤ 2 then 1 else 0)
  let era := y'.ediv 400
  let yoe := y' - era * 400
  let mp := m + (if m > 2 then -3 else 9)
  let doy := (153 * mp + 2).ediv 5 + d - 1
  let doe := yoe * 365 + yoe.ediv 4 - yoe.ediv 100 + doy
  era * 146097 + doe - 719468

/-- Left-pad a decimal rendering with zeros. -/
def padZeros (width : Nat) (s : String) : String :=
  ⟨List.replicate (width - s.data.length) '0' ++ s.data⟩

/-- `strftime('%Y-%m-%d')` on a day number (years of interest are
positive four-digit years). -/
def fmtYMD (z : Int) : String :=
  let c := civilFromDays z
  padZeros 4 (toString c.1.toNat) ++ "-" ++ padZeros 2 (toString c.2.1.toNat)
    ++ "-" ++ padZeros 2 (toString c.2.2.toNat)

/-- Days in a month of the Gregorian calendar. -/
def daysInMonth (y : Int) (m : Nat) : Nat :=
  if m == 2 then
    if y.emod 4 == 0 && (y.emod 100 != 0 || y.emod 400 == 0) then 29 else 28
  else if m == 4 || m == 6 || m == 9 || m == 11 then 30
  else 31

/-- Validate a (year, month, day) triple and return its day number. -/
def mkDate (y m d : Nat) : Option Int :=
  if 1 ≤ m && m ≤ 12 && 1 ≤ d && d ≤ daysInMonth (y : Int) m then
    some (daysFromCivil (y : Int) (m : Int) (d : Int))
  else none

/-- Component order of an explicit `strptime` date format. -/
inductive DOrder where
  | ymd
  | mdy
  | dmy
  deriving DecidableEq, Repr

/-- One explicit `strptime` format: three numeric components joined by a
separator, interpreted in the given order and validated. -/
def parseSepOrder (sep : Char) (ord : DOrder) (s : String) : Option Int :=
  match splitOnChar sep s.data with
  | [a, b, c] =>
    if a.isEmpty || b.isEmpty || c.isEmpty then none
    else if a.all Char.isDigit && b.all Char.isDigit && c.all Char.isDigit then
      match ord with
      | .ymd => mkDate (digitsVal a) (digitsVal b) (digitsVal c)
      | .mdy => mkDate (digitsVal c) (digitsVal a) (digitsVal b)
      | .dmy => mkDate (digitsVal c) (digitsVal b) (digitsVal a)
    else none
  | _ => none

/-- The explicit format cascade of lines 175-183, in source order:
`%Y-%m-%d`, `%Y/%m/%d`, `%m-%d-%Y`, `%d-%m-%Y`, `%Y.%m.%d`,
`%m/%d/%Y`, `%d/%m/%Y`. -/
def date_formats : List (String → Option Int) :=
  [parseSepOrder '-' .ymd, parseSepOrder '/' .ymd, parseSepOrder '-' .mdy,
   parseSepOrder '-' .dmy, parseSepOrder '.' .ymd, parseSepOrder '/' .mdy,
   parseSepOrder '/' .dmy]

/-- `parse_relative_date` of lines 158-167: the literal tokens
yesterday/today/tomorrow (case-insensitive, trimmed) become the
corresponding calendar date rendered with `strftime('%Y-%m-%d')`; all
other values pass through unchanged. -/
def parse_relative_date (today : Int) (val : String) : String :=
  let v := strStrip (strLower val)
  if v == "yesterday" then fmtYMD (today - 1)
  else if v == "today" then fmtYMD today
  else if v == "tomorrow" then fmtYMD (today + 1)
  else val

/-- One cell of a retry iteration (lines 202-208). By the time the retry
loop runs, line 189 has already overwritten the column with the coerced
datetimes, so a row selected by `na_mask` holds the `NaT` marker itself,
not its original string; `pd.to_datetime(NaT, errors='coerce',
format=...)` is `NaT` for every format, so the format argument can never
be applied to anything parsable. A row not selected keeps its value. -/
def reparseCell (_f : String → Option Int) : Option Int → Option Int
  | some d => some d
  | none => none

/-- Lines 195-211: iterate the explicit formats in order over the
current (already coerced) column, re-parsing only the still-missing
cells — which hold `NaT`, not strings. -/
def retryFormats (fmts : List (String → Option Int))
    (cur : List (Option Int)) : List (Option Int) :=
  fmts.foldl (fun cur f => cur.map (reparseCell f)) cur

/-- The date-cleaning stage on one column: relative-token substitution
(lines 156-171), flexible automatic parse overwriting the column
(line 189, `auto`), then the retry loop over the overwritten column
(lines 195-211). Unparsable values end as `none` (NaT); no row is ever
dropped. -/
def cleanDateColumn (auto : String → Option Int) (fmts : List (String → Option Int))
    (today : Int) (vals : List String) : List (Option Int) :=
  let vs := vals.map (parse_relative_date today)
  retryFormats fmts (vs.map auto)

/-! ## Field registry (`src/field_config.py`, `STANDARD_FIELDS`)

Only the detection-relevant content is embedded: the field keys with
their keyword lists, in the registry's (insertion) iteration order.
-/

/-- The registry: (field key, keywords), in iteration order. -/
def STANDARD_FIELDS : List (String × List String) :=
  [("SaleID",
    ["id", "客户id", "用户编号", "订单号", "序列号", "记录号", "唯一标识",
     "customer_id", "user_id", "order_id", "serial", "record_id", "编号"]),
   ("CustomerName",
    ["姓名", "用户名", "联系人", "name", "username", "contact", "客户名", "客户姓名"]),
   ("Phone",
    ["手机号", "电话", "phone", "mobile", "tel", "联系电话", "手机"]),
   ("Email",
    ["邮箱", "email", "mail", "电子邮件", "e-mail"]),
   ("Address",
    ["地址", "address", "location", "详细地址", "收货地址"]),
   ("Province",
    ["省份", "province", "state", "省"]),
   ("City",
    ["城市", "city", "市"]),
   ("Department",
    ["部门", "department", "dept", "所属部门"]),
   ("OrderDate",
    ["日期", "时间", "创建时间", "更新日期", "开始日期", "结束日期",
     "date", "time", "created_at", "updated_at", "start_date", "end_date",
     "注册日期", "订单日期", "下单时间", "购买日期"]),
   ("ProductName",
    ["商品名称", "产品名", "product", "item", "goods", "产品", "商品"]),
   ("SKU",
    ["sku", "商品编码", "product_code", "货号", "商品sku"]),
   ("ProductCategory",
    ["产品类别", "商品分类", "category", "产品分类", "商品类别"]),
   ("Model",
    ["型号", "model", "specification", "规格", "机型"]),
   ("TotalPrice",
    ["金额", "价格", "总计", "amount", "price", "total", "money",
     "薪资", "薪水", "salary", "总金额", "总价", "消费金额"]),
   ("UnitPrice",
    ["单价", "unit_price", "单位价格"]),
   ("Quantity",
    ["数量", "quantity", "qty", "count", "购买数量"]),
   ("Revenue",
    ["收入", "revenue", "income", "营收"]),
   ("Cost",
    ["成本", "cost", "expense", "费用"]),
   ("Age",
    ["年龄", "age", "岁"]),
   ("Rating",
    ["评分", "rating", "score", "评价", "打分"]),
   ("Status",
    ["状态", "status", "state", "订单状态"]),
   ("Type",
    ["类型", "type", "kind"]),
   ("Category",
    ["分类", "类别", "category"]),
   ("Level",
    ["等级", "level", "grade", "rank", "级别"]),
   ("Gender",
    ["性别", "gender", "sex"]),
   ("IsValid",
    ["是否有效", "有效性", "valid", "is_valid", "active", "启用"]),
   ("Description",
    ["描述", "详情", "说明", "description", "detail", "note"]),
   ("Remarks",
    ["备注", "注释", "remarks", "comment", "notes", "备注信息"])]

/-! ## Field detector (`app.py`, `detect_standard_field`, lines 224-270) -/

/-- Inner keyword loop of `detect_standard_field`: `none` signals that an
exact match was found (the caller returns the current field key);
otherwise the updated (best_match, max_match_score) accumulator is
returned. An update happens only on a strictly larger score. -/
def scanKeywords (c fk : String) : List String → String × Nat → Option (String × Nat)
  | [], acc => some acc
  | kw :: rest, acc =>
    let k := strLower kw
    if c == k then none
    else if strContainsSub c k then
      scanKeywords c fk rest (if k.length > acc.2 then (fk, k.length) else acc)
    else if strContainsSub k c && decide (c.length > 2) then
      scanKeywords c fk rest (if c.length > acc.2 then (fk, c.length) else acc)
    else scanKeywords c fk rest acc

/-- Outer field loop of `detect_standard_field`. -/
def detectGo (c : String) : List (String × List String) → String × Nat → String
  | [], acc => acc.1
  | (fk, kws) :: rest, acc =>
    match scanKeywords c fk kws acc with
    | none => fk
    | some acc' => detectGo c rest acc'

/-- `detect_standard_field(column_name)`: empty input is "Ignore";
otherwise the name is lower-cased and trimmed and scanned against the
registry with exact-match short-circuit and longest-keyword scoring. -/
def detect_standard_field (column_name : String) : String :=
  if column_name == "" then "Ignore"
  else detectGo (strStrip (strLower column_name)) STANDARD_FIELDS ("Ignore", 0)

/-- One candidate of the spec's scoring description (§4.2): type A
(keyword inside column, score = keyword length) else type B (column
inside keyword and longer than 2 characters, score = column length). -/
def candOf (c fk : String) (kw : String) : Option (String × Nat) :=
  let k := strLower kw
  if strContainsSub c k then some (fk, k.length)
  else if strContainsSub k c && decide (c.length > 2) then some (fk, c.length)
  else none

/-- All scored candidates of a normalized column name, in registry
iteration order. -/
def candidates (c : String) : List (String × Nat) :=
  STANDARD_FIELDS.foldr (fun p r => p.2.filterMap (candOf c p.1) ++ r) []

/-- Track the single highest-scoring candidate; strict improvement only,
so the first field reaching the maximum wins ties. -/
def bestCandidate : List (String × Nat) → String × Nat → String × Nat
  | [], acc => acc
  | (f, s) :: rest, acc => bestCandidate rest (if s > acc.2 then (f, s) else acc)

/-- The spec's description of detection without an exact match (§4.2
steps 2-4): score every candidate, take the highest-scoring one (first
in registry order on ties), "Ignore" when nothing scores above zero. -/
def detectSpec (column_name : String) : String :=
  if column_name == "" then "Ignore"
  else (bestCandidate (candidates (strStrip (strLower column_name))) ("Ignore", 0)).1

/-! ## Per-cleaner log emission (`data_cleaner.py`, lines 104-325)

For claim C8 each cleaner of the coercion battery is embedded by the
list of log entries it appends when its gating field is present, as a
function of the column's values where the message depends on them.
-/

/-- Logs of one numeric/financial field cleaner (lines 117-133). -/
def numericFieldLogs (field label : String) (vals : List String) : List String :=
  let invalid := ((cleanNumericColumn vals).filter Option.isNone).length
  if financial_fields.contains field then
    if invalid > 0 then
      let n := toString invalid
      ["Cleaned '" ++ field ++ "' (" ++ label ++ "): Removed symbols and commas, converted to numeric. "
        ++ n ++ " invalid values replaced with 0 (rows preserved)."]
    else
      ["Cleaned '" ++ field ++ "' (" ++ label ++ "): Removed currency symbols and commas, converted to numeric."]
  else
    ["Cleaned '" ++ field ++ "' (" ++ label ++ "): Converted to numeric format."]

/-- Logs of the Age cleaner (lines 136-146); `invalid_age_count` counts
only parsed out-of-range ages (NaN compares false on both bounds). -/
def ageLogs (vals : List String) : List String :=
  let parsed := vals.map toNumeric
  let invalid := (parsed.filter fun o =>
    match o with
    | some a => decide (a < (0 : Dec)) || decide ((150 : Dec) < a)
    | none => false).length
  if invalid > 0 then
    let n := toString invalid
    ["Processed 'Age': Converted to numeric and filtered out " ++ n
      ++ " records with invalid age (negative or > 150)."]
  else ["Processed 'Age': Converted to numeric format."]

/-- Logs of one date-field cleaner (lines 218-222). -/
def dateFieldLogs (field : String) (auto : String → Option Int)
    (fmts : List (String → Option Int)) (today : Int) (vals : List String) : List String :=
  let cleaned := cleanDateColumn auto fmts today vals
  let parsedCount := (cleaned.filter Option.isSome).length
  let originalCount := vals.length
  if originalCount > parsedCount then
    let p := toString parsedCount
    let o := toString originalCount
    let missed := toString (originalCount - parsedCount)
    ["Cleaned '" ++ field ++ "': Standardized datetime format, " ++ p ++ "/" ++ o
      ++ " dates successfully parsed. " ++ missed ++ " dates could not be parsed (kept as NaN)."]
  else
    ["Cleaned '" ++ field ++ "': Standardized datetime format, all dates successfully parsed."]

/-- Logs of the CustomerName cleaner (lines 230-251): when any stripped
value contains a denylisted token (case-insensitively), an extra removal
entry is appended before the unconditional trim entry. -/
def customerNameLogs (vals : List String) : List String :=
  let stripped := vals.map strStrip
  let matched := (stripped.filter fun v => strContainsSub (strLower v) "double clean").length
  (if matched > 0 then
    let n := toString matched
    ["Cleaned 'CustomerName': Removed " ++ n ++ " invalid entries (e.g., 'double clean')."]
  else []) ++ ["Cleaned 'CustomerName' (客户姓名): Trimmed whitespace."]

/-- Logs of the ProductName cleaner (same loop, no denylist branch). -/
def productNameLogs : List String :=
  ["Cleaned 'ProductName' (产品名称): Trimmed whitespace."]

/-- Logs of one location-field cleaner (lines 260-263). -/
def locationFieldLogs (field label : String) : List String :=
  ["Cleaned '" ++ field ++ "' (" ++ label ++ "): Trimmed whitespace."]

/-- Logs of the Phone cleaner (lines 266-268). -/
def phoneLogs : List String :=
  ["Cleaned 'Phone': Removed special characters, kept only digits and common separators."]

/-- Logs of the Email cleaner (lines 271-291). -/
def emailLogs : List String :=
  ["Cleaned 'Email': Standardized to lowercase, trimmed whitespace, and fixed common format errors (# → @)."]

/-- Logs of one status/category-field cleaner (lines 303-306). -/
def statusFieldLogs (field label : String) : List String :=
  ["Cleaned '" ++ field ++ "' (" ++ label ++ "): Trimmed whitespace and standardized format."]

/-- Logs of the IsValid cleaner (lines 309-311). -/
def isValidLogs : List String :=
  ["Cleaned 'IsValid': Converted to boolean (True/False)."]

/-- Logs of one text/notes-field cleaner (lines 322-325). -/
def textNoteFieldLogs (field label : String) : List String :=
  ["Cleaned '" ++ field ++ "' (" ++ label ++ "): Trimmed whitespace."]

/-! # Theorems settling the claims -/

/-- Claim C5: for a financial column the cleaner strips currency symbols,
commas and whitespace, parses the result, replaces every unparsable value
with 0 while keeping the row, and for non-financial numeric columns
leaves unparsable values missing with the row kept; in particular
`["$1,200", "¥500", "bad", ""]` coerces to `[1200, 500, 0, 0]` with the
row count unchanged at 4. -/
theorem financial_coercion_policy (vals : List String) :
    (cleanFinancialColumn vals).length = vals.length ∧
    (cleanNumericColumn vals).length = vals.length ∧
    (∀ (i : Nat) v, vals[i]? = some v → toNumeric (stripMoney v) = none →
      (cleanFinancialColumn vals)[i]? = some 0 ∧
      (cleanNumericColumn vals)[i]? = some none) ∧
    (∀ (i : Nat) v q, vals[i]? = some v → toNumeric (stripMoney v) = some q →
      (cleanFinancialColumn vals)[i]? = some q ∧
      (cleanNumericColumn vals)[i]? = some (some q)) ∧
    cleanFinancialColumn ["$1,200", "¥500", "bad", ""] = [1200, 500, 0, 0] := by
  refine ⟨?_, ?_, ?_, ?_, by decide⟩
  · simp [cleanFinancialColumn, cleanNumericColumn]
  · simp [cleanNumericColumn]
  · intro i v hv hnone
    simp [cleanFinancialColumn, cleanNumericColumn, List.getElem?_map, hv, hnone]
  · intro i v q hv hsome
    simp [cleanFinancialColumn, cleanNumericColumn, List.getElem?_map, hv, hsome]

/-- Witness for C5 at the unparsable cell "bad" of the spec's example. -/
theorem financial_coercion_policy_witness :
    (cleanFinancialColumn ["$1,200", "¥500", "bad", ""])[2]? = some 0 ∧
    (cleanNumericColumn ["$1,200", "¥500", "bad", ""])[2]? = some none :=
  (financial_coercion_policy ["$1,200", "¥500", "bad", ""]).2.2.1 2 "bad" (by decide) (by decide)

/-- Claim C4: when every Age value parses as a number, the Age cleaner
drops (does not clamp) exactly the rows whose age is negative or greater
than 150, keeping the inclusive range [0, 150] with values unchanged. -/
theorem age_filter_drops_out_of_range (vals : List String)
    (h : ∀ v ∈ vals, (toNumeric v).isSome = true) :
    cleanAgeColumn vals =
      (vals.filterMap toNumeric).filter
        (fun a => decide ((0 : Dec) ≤ a) && decide (a ≤ (150 : Dec))) := by
  induction vals with
  | nil => rfl
  | cons v rest ih =>
    have hv : (toNumeric v).isSome = true := h v (List.mem_cons_self v rest)
    obtain ⟨a, ha⟩ := Option.isSome_iff_exists.mp hv
    have ih' := ih fun x hx => h x (List.mem_cons_of_mem v hx)
    by_cases hk : (decide ((0 : Dec) ≤ a) && decide (a ≤ (150 : Dec))) = true
    · simp [cleanAgeColumn, ha, ageRowKept, hk, List.filterMap_cons] at ih' ⊢
      simpa [cleanAgeColumn] using ih'
    · simp [cleanAgeColumn, ha, ageRowKept, hk, List.filterMap_cons] at ih' ⊢
      simpa [cleanAgeColumn] using ih'

/-- Witness for C4: the spec's example `[-5, 30, 200, 45]` keeps exactly
`[30, 45]`. -/
theorem age_filter_witness :
    cleanAgeColumn ["-5", "30", "200", "45"] = [30, 45] :=
  (age_filter_drops_out_of_range ["-5", "30", "200", "45"] (by decide)).trans (by decide)

/-- Claim C10 (implicit): a row whose Age value fails numeric parsing is
dropped by the age range filter (removing it from the column leaves the
result unchanged), unlike a non-financial numeric column, where the row
is kept as missing (the column's length counts it). -/
theorem unparsable_age_row_dropped (v : String) (pre post : List String)
    (h : toNumeric v = none) :
    cleanAgeColumn (pre ++ v :: post) = cleanAgeColumn (pre ++ post) ∧
    (cleanNumericColumn (pre ++ v :: post)).length = (pre ++ post).length + 1 := by
  constructor
  · simp [cleanAgeColumn, List.map_append, List.filter_append, h, ageRowKept]
  · simp [cleanNumericColumn]
    omega

/-- Witness for C10 with the unparsable age "abc" between rows 30 and 45. -/
theorem unparsable_age_row_dropped_witness :
    cleanAgeColumn (["30"] ++ "abc" :: ["45"]) = cleanAgeColumn (["30"] ++ ["45"]) ∧
    (cleanNumericColumn (["30"] ++ "abc" :: ["45"])).length = (["30"] ++ ["45"]).length + 1 :=
  unparsable_age_row_dropped "abc" ["30"] ["45"] (by decide)

/-- Counterexample to claim C1: with the empty explicit mapping (`{}`),
`clean_excel` still applies the hardcoded legacy mapping (`薪资` is
renamed to `TotalPrice`) and logs default mode, not the user-mapping
count/fields entries: Python's `if user_mapping:` treats an empty dict
like `None`. -/
theorem empty_mapping_applies_legacy :
    applyColumnMapping (some []) ["薪资"] = (["TotalPrice"], [defaultMappingLog]) ∧
    ("TotalPrice" : String) ≠ "薪资" ∧
    [defaultMappingLog] ≠ userMappingLogs [] := by
  exact ⟨by decide, by decide, by decide⟩

/-- Claim C1 as amended: the explicit mapping is applied (columns renamed
per it, mapped-column count and target field keys logged) only when it is
non-empty; an empty explicit mapping behaves exactly like a null one and
takes the legacy mapping path with the default-mode log. -/
theorem column_mapping_truthiness (m : List (String × String)) (cols : List String) :
    applyColumnMapping (some []) cols = applyColumnMapping none cols ∧
    applyColumnMapping none cols = (renameCols legacy_mapping cols, [defaultMappingLog]) ∧
    (m ≠ [] → applyColumnMapping (some m) cols = (renameCols m cols, userMappingLogs m)) ∧
    (∀ (i : Nat) c, cols[i]? = some c → (renameCols m cols)[i]? = some ((m.lookup c).getD c)) := by
  refine ⟨rfl, rfl, ?_, ?_⟩
  · intro hm
    cases m with
    | nil => exact absurd rfl hm
    | cons p rest => rfl
  · intro i c hc
    simp [renameCols, List.getElem?_map, hc]

/-- Witness for C1's amended claim with a one-entry mapping. -/
theorem column_mapping_truthiness_witness :
    applyColumnMapping (some [("薪资", "Age")]) ["薪资", "x"] =
      (["Age", "x"],
       ["Applied user column mapping: 1 columns mapped.", "Mapped fields: Age"]) :=
  ((column_mapping_truthiness [("薪资", "Age")] ["薪资", "x"]).2.2.1 (by decide)).trans
    (by decide)

/-- Membership after a single-column rename. -/
theorem mem_renameOne (s t x : String) (l : List String) :
    x ∈ renameOne s t l ↔ (x = t ∧ s ∈ l) ∨ (x ∈ l ∧ x ≠ s) := by
  simp only [renameOne, List.mem_map]
  constructor
  · rintro ⟨a, ha, hfa⟩
    by_cases has : a = s
    · subst has
      rw [if_pos (by simp)] at hfa
      exact Or.inl ⟨hfa.symm, ha⟩
    · rw [if_neg (by simpa using has)] at hfa
      subst hfa
      exact Or.inr ⟨ha, has⟩
  · rintro (⟨hx, hs⟩ | ⟨hx, hxs⟩)
    · exact ⟨s, hs, by simp [hx]⟩
    · exact ⟨x, hx, by simp [hxs]⟩

/-- Cell-level view of a single-column rename. -/
theorem renameOne_getElem? (s t : String) (l : List String) (i : Nat) :
    (renameOne s t l)[i]? = (l[i]?).map fun c => if c == s then t else c := by
  simp [renameOne, List.getElem?_map]

/-- The fallback pass, characterized by which pairs fire on the input
header: each firing pair renames its source column and appends its own
log entry, in the fixed pair order. -/
theorem fallbackPass_eq (cols : List String) :
    fallbackPass cols =
      ((if firedJoinDate cols then renameOne "join_date" "OrderDate" else id)
        ((if firedSalaryCN cols then renameOne "薪资" "TotalPrice" else id)
          ((if firedWage cols then renameOne "Wage" "TotalPrice" else id) cols)),
       (if firedWage cols then [fallbackLog "Wage" "TotalPrice"] else []) ++
       (if firedSalaryCN cols then [fallbackLog "薪资" "TotalPrice"] else []) ++
       (if firedJoinDate cols then [fallbackLog "join_date" "OrderDate"] else [])) := by
  by_cases hT : "TotalPrice" ∈ cols
  · by_cases hJ : "join_date" ∈ cols <;> by_cases hO : "OrderDate" ∈ cols <;>
      simp [fallbackPass, fallback_mapping, firedWage, firedSalaryCN, firedJoinDate,
        hT, hJ, hO, mem_renameOne]
  · by_cases hW : "Wage" ∈ cols
    · by_cases hJ : "join_date" ∈ cols <;> by_cases hO : "OrderDate" ∈ cols <;>
        simp [fallbackPass, fallback_mapping, firedWage, firedSalaryCN, firedJoinDate,
          hT, hW, hJ, hO, mem_renameOne]
    · by_cases hX : "薪资" ∈ cols
      · by_cases hJ : "join_date" ∈ cols <;> by_cases hO : "OrderDate" ∈ cols <;>
          simp [fallbackPass, fallback_mapping, firedWage, firedSalaryCN, firedJoinDate,
            hT, hW, hX, hJ, hO, mem_renameOne]
      · by_cases hJ : "join_date" ∈ cols <;> by_cases hO : "OrderDate" ∈ cols <;>
          simp [fallbackPass, fallback_mapping, firedWage, firedSalaryCN, firedJoinDate,
            hT, hW, hX, hJ, hO, mem_renameOne]

/-- Cell-level view of the whole fallback pass. -/
theorem fallbackPass_getElem? (cols : List String) (i : Nat) :
    (fallbackPass cols).1[i]? = (cols[i]?).map fun c =>
      if firedWage cols && c == "Wage" then "TotalPrice"
      else if firedSalaryCN cols && c == "薪资" then "TotalPrice"
      else if firedJoinDate cols && c == "join_date" then "OrderDate"
      else c := by
  rw [fallbackPass_eq]
  cases hc : cols[i]? with
  | none =>
    by_cases hW : firedWage cols <;> by_cases hX : firedSalaryCN cols <;>
      by_cases hJ : firedJoinDate cols <;>
        simp [hW, hX, hJ, renameOne_getElem?, hc]
  | some c =>
    by_cases hW : firedWage cols <;> by_cases hX : firedSalaryCN cols <;>
      by_cases hJ : firedJoinDate cols <;>
        by_cases h1 : c = "Wage" <;> by_cases h2 : c = "薪资" <;>
          by_cases h3 : c = "join_date" <;>
            simp [hW, hX, hJ, h1, h2, h3, renameOne_getElem?, hc]

/-- Claim C9: the post-mapping fallback pass renames an alternate column
to its canonical target only when the alternate is present and the target
absent (never overwriting an existing canonical column), logs each
correction individually, and leaves every other column unchanged. -/
theorem fallback_pass_properties (cols : List String) :
    (fallbackPass cols).1.length = cols.length ∧
    (∀ (i : Nat) c, cols[i]? = some c →
      c ≠ "Wage" → c ≠ "薪资" → c ≠ "join_date" → (fallbackPass cols).1[i]? = some c) ∧
    (∀ (i : Nat) c c', cols[i]? = some c → (fallbackPass cols).1[i]? = some c' → c' ≠ c →
      (c, c') ∈ fallback_mapping ∧ cols.contains c' = false) ∧
    (fallbackPass cols).2 =
      (if firedWage cols then [fallbackLog "Wage" "TotalPrice"] else []) ++
      (if firedSalaryCN cols then [fallbackLog "薪资" "TotalPrice"] else []) ++
      (if firedJoinDate cols then [fallbackLog "join_date" "OrderDate"] else []) := by
  refine ⟨?_, ?_, ?_, ?_⟩
  · rw [fallbackPass_eq]
    by_cases hW : firedWage cols <;> by_cases hX : firedSalaryCN cols <;>
      by_cases hJ : firedJoinDate cols <;>
        first
        | rfl
        | simp [hW, hX, hJ, renameOne]
  · intro i c hc h1 h2 h3
    rw [fallbackPass_getElem?, hc]
    simp [h1, h2, h3]
  · intro i c c' hc hc' hne
    rw [fallbackPass_getElem?, hc] at hc'
    simp only [Option.map_some', Option.some_inj] at hc'
    by_cases hW : (firedWage cols && c == "Wage") = true
    · rw [if_pos hW] at hc'
      subst hc'
      simp only [Bool.and_eq_true, beq_iff_eq] at hW
      refine ⟨by simp [fallback_mapping, hW.2], ?_⟩
      have := hW.1
      simp only [firedWage, Bool.and_eq_true, Bool.not_eq_eq_eq_not, Bool.not_true] at this
      exact this.2
    · rw [if_neg hW] at hc'
      by_cases hX : (firedSalaryCN cols && c == "薪资") = true
      · rw [if_pos hX] at hc'
        subst hc'
        simp only [Bool.and_eq_true, beq_iff_eq] at hX
        refine ⟨by simp [fallback_mapping, hX.2], ?_⟩
        have := hX.1
        simp only [firedSalaryCN, Bool.and_eq_true, Bool.not_eq_eq_eq_not, Bool.not_true] at this
        exact this.1.2
      · rw [if_neg hX] at hc'
        by_cases hJ : (firedJoinDate cols && c == "join_date") = true
        · rw [if_pos hJ] at hc'
          subst hc'
          simp only [Bool.and_eq_true, beq_iff_eq] at hJ
          refine ⟨by simp [fallback_mapping, hJ.2], ?_⟩
          have := hJ.1
          simp only [firedJoinDate, Bool.and_eq_true, Bool.not_eq_eq_eq_not, Bool.not_true] at this
          exact this.2
        · rw [if_neg hJ] at hc'
          exact absurd hc'.symm hne
  · rw [fallbackPass_eq]

/-- Witness for C9: a header where 薪资 and join_date fire and an
unrelated column is left in place. -/
theorem fallback_pass_properties_witness :
    (fallbackPass ["薪资", "join_date", "City"]).1[2]? = some "City" :=
  (fallback_pass_properties ["薪资", "join_date", "City"]).2.1 2 "City" rfl
    (by decide) (by decide) (by decide)

/-- The forward scan with a seen-set equals the spec's keep-first
description on the rows whose key is not already seen. -/
theorem dropDupKeepFirst_eq_keepFirstSpec {α κ : Type} [DecidableEq κ] (key : α → κ) :
    ∀ (rows : List α) (seen : List κ),
      dropDupKeepFirst key rows seen =
        keepFirstSpec key (rows.filter fun r => decide (key r ∉ seen)) := by
  intro rows
  induction rows with
  | nil => intro seen; simp [dropDupKeepFirst, keepFirstSpec]
  | cons r rs ih =>
    intro seen
    by_cases h : key r ∈ seen
    · rw [show dropDupKeepFirst key (r :: rs) seen = dropDupKeepFirst key rs seen from
        by simp [dropDupKeepFirst, h]]
      rw [ih seen]
      congr 1
      simp [List.filter_cons, h]
    · rw [show dropDupKeepFirst key (r :: rs) seen =
          r :: dropDupKeepFirst key rs (key r :: seen) from by simp [dropDupKeepFirst, h]]
      rw [ih (key r :: seen)]
      have hcons : (r :: rs).filter (fun x => decide (key x ∉ seen)) =
          r :: rs.filter (fun x => decide (key x ∉ seen)) := by
        simp [List.filter_cons, h]
      rw [hcons, keepFirstSpec, List.filter_filter]
      congr 1
      congr 1
      apply List.filter_congr
      intro x _
      by_cases hxr : key x = key r <;> by_cases hxs : key x ∈ seen <;> simp [hxr, hxs]

/-- Claim C2: the dedup key is built additively (SaleID if present,
Email if present, Phone only if present with Email absent); duplicates
on that key are dropped keeping the first occurrence; a positive removed
count is logged with the key fields; and with no candidate field at all
the stage is skipped with no log entry. -/
theorem dedup_policy (t : DedupInput) :
    dedup_fields t =
      ((if t.hasSaleID then ["SaleID"] else []) ++
       (if t.hasEmail then ["Email"] else []) ++
       (if t.hasPhone && !t.hasEmail then ["Phone"] else [])) ∧
    (dedup_fields t ≠ [] →
      (deduplicate t).1 = keepFirstSpec (rowKey (dedup_fields t)) t.rows) ∧
    (dedup_fields t ≠ [] →
      0 < t.rows.length - (dropDupKeepFirst (rowKey (dedup_fields t)) t.rows []).length →
      (deduplicate t).2 =
        [dedupMsg (t.rows.length -
            (dropDupKeepFirst (rowKey (dedup_fields t)) t.rows []).length)
          (dedup_fields t)]) ∧
    (t.hasSaleID = false → t.hasEmail = false → t.hasPhone = false →
      deduplicate t = (t.rows, [])) := by
  have hempty : ∀ fs : List String, fs ≠ [] → fs.isEmpty = false := by
    intro fs h
    cases fs with
    | nil => exact absurd rfl h
    | cons a l => rfl
  refine ⟨?_, ?_, ?_, ?_⟩
  · obtain ⟨s, e, p, rows⟩ := t
    cases s <;> cases e <;> cases p <;> rfl
  · intro h
    simp only [deduplicate, hempty _ h, Bool.false_eq_true, if_false]
    rw [dropDupKeepFirst_eq_keepFirstSpec]
    congr 1
    apply (List.filter_eq_self).mpr
    intro r _
    simp
  · intro h hpos
    simp only [deduplicate, hempty _ h, Bool.false_eq_true, if_false, hpos, if_pos]
  · intro hs he hp
    obtain ⟨s, e, p, rows⟩ := t
    simp only at hs he hp
    subst hs he hp
    rfl

/-- Witness for C2: two rows with equal Email (SaleID column absent) —
one is removed and the removal is logged against the Email key. -/
theorem dedup_policy_witness :
    (deduplicate ⟨false, true, false,
        [(some "1", some "a@b.com", none), (some "2", some "a@b.com", none)]⟩).2 =
      ["Removed 1 duplicate records based on: Email."] :=
  ((dedup_policy ⟨false, true, false,
      [(some "1", some "a@b.com", none), (some "2", some "a@b.com", none)]⟩).2.2.1
    (by decide) (by decide)).trans (by decide)

/-- One retry cell update changes nothing: kept values are kept and the
re-parse of `NaT` is `NaT`. -/
theorem reparseCell_id (f : String → Option Int) (o : Option Int) :
    reparseCell f o = o := by
  cases o <;> rfl

/-- One retry iteration over the overwritten column is the identity. -/
theorem map_reparseCell (f : String → Option Int) :
    ∀ cur : List (Option Int), cur.map (reparseCell f) = cur
  | [] => rfl
  | o :: rest => by rw [List.map_cons, reparseCell_id, map_reparseCell f rest]

/-- The whole retry loop is the identity: since line 189 destroyed the
original strings, no explicit format ever parses anything. -/
theorem retryFormats_id (fmts : List (String → Option Int)) :
    ∀ cur : List (Option Int), retryFormats fmts cur = cur := by
  induction fmts with
  | nil => intro cur; rfl
  | cons f rest ih =>
    intro cur
    show retryFormats rest (cur.map (reparseCell f)) = cur
    rw [map_reparseCell f cur]
    exact ih cur

/-- Claim C3 is the intent but the code has a bug: the date stage does
keep the row count and map the relative tokens, and failures stay as the
missing marker, but the explicit-format cascade is dead — line 189
overwrites the column with the coerced datetimes before the retry loop,
so lines 202-208 re-parse only `NaT` markers and the stage's output is
exactly the flexible parse of the token-substituted values. At the
failing input, with a flexible parser that misses "2023-01-05", the
value stays missing even though the first explicit format `%Y-%m-%d`
parses it, contradicting the cascade described by the claim and by the
code's own comments (lines 194 and 207). -/
theorem date_retry_loop_dead (auto : String → Option Int)
    (fmts : List (String → Option Int)) (today : Int) (vals : List String) :
    cleanDateColumn auto fmts today vals =
      (vals.map (parse_relative_date today)).map auto ∧
    (cleanDateColumn auto fmts today vals).length = vals.length ∧
    cleanDateColumn (fun _ => none) date_formats 19363 ["2023-01-05"] = [none] ∧
    parseSepOrder '-' DOrder.ymd "2023-01-05" = some 19362 ∧
    cleanDateColumn (parseSepOrder '-' DOrder.ymd) date_formats 19363
      ["2023-01-05", "yesterday", "not a date"] = [some 19362, some 19362, none] := by
  have hmain : cleanDateColumn auto fmts today vals =
      (vals.map (parse_relative_date today)).map auto := by
    unfold cleanDateColumn
    exact retryFormats_id fmts _
  refine ⟨hmain, ?_, by decide, by decide, by decide⟩
  rw [hmain]
  simp

/-- The keyword scan short-circuits to `none` as soon as some keyword
matches the normalized column exactly. -/
theorem scanKeywords_exact (c fk : String) :
    ∀ (kws : List String) (acc : String × Nat),
      (∃ kw ∈ kws, c = strLower kw) → scanKeywords c fk kws acc = none := by
  intro kws
  induction kws with
  | nil =>
    rintro acc ⟨kw, hmem, -⟩
    exact absurd hmem (List.not_mem_nil kw)
  | cons kw rest ih =>
    rintro acc ⟨kw', hmem, heq⟩
    by_cases hc : (c == strLower kw) = true
    · simp only [scanKeywords, hc, if_pos]
    · have hkw' : kw' ∈ rest := by
        rcases List.mem_cons.mp hmem with h | h
        · subst h
          exact absurd (by simpa using heq) hc
        · exact h
      simp only [scanKeywords, hc, Bool.false_eq_true, if_false]
      split
      · exact ih _ ⟨kw', hkw', heq⟩
      · split
        · exact ih _ ⟨kw', hkw', heq⟩
        · exact ih _ ⟨kw', hkw', heq⟩

/-- Without an exact match the keyword scan always returns an updated
accumulator (never the short-circuit signal). -/
theorem scanKeywords_no_exact (c fk : String) :
    ∀ (kws : List String) (acc : String × Nat),
      (∀ kw ∈ kws, c ≠ strLower kw) →
      scanKeywords c fk kws acc =
        some (bestCandidate (kws.filterMap (candOf c fk)) acc) := by
  intro kws
  induction kws with
  | nil => intro acc _; rfl
  | cons kw rest ih =>
    intro acc h
    have hc : (c == strLower kw) = false := by
      simpa using h kw (List.mem_cons_self kw rest)
    have hrest : ∀ kw' ∈ rest, c ≠ strLower kw' :=
      fun kw' hk => h kw' (List.mem_cons_of_mem kw hk)
    simp only [scanKeywords, hc, Bool.false_eq_true, if_false]
    by_cases hA : strContainsSub c (strLower kw) = true
    · rw [if_pos hA, ih _ hrest]
      have hcand : candOf c fk kw = some (fk, (strLower kw).length) := by
        simp only [candOf, hA, if_pos]
      rw [List.filterMap_cons, hcand]
      rfl
    · rw [if_neg hA]
      by_cases hB : (strContainsSub (strLower kw) c && decide (c.length > 2)) = true
      · rw [if_pos hB, ih _ hrest]
        have hcand : candOf c fk kw = some (fk, c.length) := by
          simp only [candOf, hA, Bool.false_eq_true, if_false, hB, if_pos]
        rw [List.filterMap_cons, hcand]
        rfl
      · rw [if_neg hB, ih _ hrest]
        have hcand : candOf c fk kw = none := by
          simp only [candOf, hA, Bool.false_eq_true, if_false, hB]
        rw [List.filterMap_cons, hcand]

/-- The field loop returns the field of the first exactly-matching
keyword in registry iteration order. -/
theorem detectGo_exact (c : String) :
    ∀ (fields : List (String × List String)) (acc : String × Nat) (fk : String)
      (kws : List String),
      fields.find? (fun p => p.2.any fun kw => c == strLower kw) = some (fk, kws) →
      detectGo c fields acc = fk := by
  intro fields
  induction fields with
  | nil => intro acc fk kws h; cases h
  | cons p rest ih =>
    intro acc fk kws h
    obtain ⟨fk', kws'⟩ := p
    cases hp : (kws'.any fun kw => c == strLower kw) with
    | true =>
      simp only [List.find?_cons, hp] at h
      obtain ⟨kw, hkw, hck⟩ := List.any_eq_true.mp hp
      have hscan : scanKeywords c fk' kws' acc = none :=
        scanKeywords_exact c fk' kws' acc ⟨kw, hkw, by simpa using hck⟩
      simp only [detectGo, hscan]
      exact congrArg Prod.fst (Option.some.inj h)
    | false =>
      simp only [List.find?_cons, hp] at h
      have hno : ∀ kw ∈ kws', c ≠ strLower kw := by
        intro kw hkw hceq
        have hkweq : (c == strLower kw) = true := by simpa using hceq
        have hany : kws'.any (fun kw => c == strLower kw) = true :=
          List.any_eq_true.mpr ⟨kw, hkw, hkweq⟩
        rw [hp] at hany
        cases hany
      rw [show detectGo c ((fk', kws') :: rest) acc =
          detectGo c rest (bestCandidate (kws'.filterMap (candOf c fk')) acc) from by
        simp only [detectGo, scanKeywords_no_exact c fk' kws' acc hno]]
      exact ih _ _ _ h

/-- Claim C6: a column name whose normalized form equals the normalized
form of a registered keyword is detected as the field owning that
keyword, short-circuiting further scanning; ties between fields sharing
the keyword go to the first field in registry iteration order (the
hypothesis is phrased with `find?`, the first matching field). -/
theorem exact_match_short_circuits (col fk : String) (kws : List String)
    (h : STANDARD_FIELDS.find?
        (fun p => p.2.any fun kw => strStrip (strLower col) == strLower kw) =
      some (fk, kws)) :
    detect_standard_field col = fk := by
  have hmem := List.mem_of_find?_eq_some h
  have hpred := List.find?_some h
  have hne : (col == "") = false := by
    by_cases hcol : col = ""
    · subst hcol
      obtain ⟨kw, hkw, hck⟩ := by simpa using List.any_eq_true.mp hpred
      have hreg : ∀ p ∈ STANDARD_FIELDS, ∀ kw ∈ p.2, strLower kw ≠ "" := by decide
      exact absurd hck.symm (by simpa using hreg _ hmem kw hkw)
    · simpa using hcol
  unfold detect_standard_field
  rw [hne]
  simp only [Bool.false_eq_true, if_false]
  exact detectGo_exact _ STANDARD_FIELDS _ fk kws h

/-- Witness for C6: "Email" matches the Email field's keyword exactly. -/
theorem exact_match_short_circuits_witness : detect_standard_field "Email" = "Email" :=
  exact_match_short_circuits "Email" "Email" ["邮箱", "email", "mail", "电子邮件", "e-mail"]
    (by decide)

/-- Counterexample to claim C7 as stated: the column
"unit_price_customer_id" has two overlapping substring-matched keywords
of different lengths in different fields — "price" (TotalPrice) inside
"unit_price" (UnitPrice) — and no exact match, yet detection returns
SaleID (via the even longer candidate "customer_id"), not the longer
keyword's field UnitPrice. -/
theorem longer_keyword_not_always_winner :
    ((STANDARD_FIELDS.lookup "TotalPrice").getD []).contains "price" = true ∧
    ((STANDARD_FIELDS.lookup "UnitPrice").getD []).contains "unit_price" = true ∧
    ((STANDARD_FIELDS.lookup "SaleID").getD []).contains "customer_id" = true ∧
    strContainsSub "unit_price" "price" = true ∧
    "price".length ≠ "unit_price".length ∧
    strContainsSub "unit_price_customer_id" "price" = true ∧
    strContainsSub "unit_price_customer_id" "unit_price" = true ∧
    (STANDARD_FIELDS.all fun p => p.2.all fun kw =>
      !("unit_price_customer_id" == strLower kw)) = true ∧
    detect_standard_field "unit_price_customer_id" = "SaleID" ∧
    "SaleID" ≠ "UnitPrice" := by
  decide

/-- Folding the tracker over concatenated candidate lists. -/
theorem bestCandidate_append (l1 l2 : List (String × Nat)) (acc : String × Nat) :
    bestCandidate (l1 ++ l2) acc = bestCandidate l2 (bestCandidate l1 acc) := by
  induction l1 generalizing acc with
  | nil => rfl
  | cons x rest ih =>
    obtain ⟨f, s⟩ := x
    simp only [List.cons_append, bestCandidate]
    exact ih _

/-- Without an exact match anywhere, the field loop computes exactly the
spec's highest-score-first-wins fold over the candidate list. -/
theorem detectGo_no_exact (c : String) :
    ∀ (fields : List (String × List String)) (acc : String × Nat),
      (∀ p ∈ fields, ∀ kw ∈ p.2, c ≠ strLower kw) →
      detectGo c fields acc =
        (bestCandidate
          (fields.foldr (fun p r => p.2.filterMap (candOf c p.1) ++ r) []) acc).1 := by
  intro fields
  induction fields with
  | nil => intro acc _; rfl
  | cons p rest ih =>
    intro acc h
    obtain ⟨fk', kws'⟩ := p
    have hhead : ∀ kw ∈ kws', c ≠ strLower kw :=
      fun kw hk => h _ (List.mem_cons_self _ _) kw hk
    have hrest : ∀ q ∈ rest, ∀ kw ∈ q.2, c ≠ strLower kw :=
      fun q hq => h q (List.mem_cons_of_mem _ hq)
    rw [show detectGo c ((fk', kws') :: rest) acc =
        detectGo c rest (bestCandidate (kws'.filterMap (candOf c fk')) acc) from by
      simp only [detectGo, scanKeywords_no_exact c fk' kws' acc hhead]]
    rw [ih _ hrest, List.foldr_cons, bestCandidate_append]

/-- The tracker's final score dominates the starting score and every
candidate's score. -/
theorem bestCandidate_max (l : List (String × Nat)) :
    ∀ acc : String × Nat,
      acc.2 ≤ (bestCandidate l acc).2 ∧ ∀ x ∈ l, x.2 ≤ (bestCandidate l acc).2 := by
  induction l with
  | nil =>
    intro acc
    exact ⟨Nat.le_refl _, by simp⟩
  | cons x rest ih =>
    intro acc
    obtain ⟨f, s⟩ := x
    simp only [bestCandidate]
    constructor
    · by_cases hs : s > acc.2
      · rw [if_pos hs]
        exact Nat.le_trans (Nat.le_of_lt hs) ((ih (f, s)).1)
      · rw [if_neg hs]
        exact (ih _).1
    · intro y hy
      rcases List.mem_cons.mp hy with hyx | hy'
      · subst hyx
        by_cases hs : s > acc.2
        · rw [if_pos hs]
          exact (ih (f, s)).1
        · rw [if_neg hs]
          exact Nat.le_trans (Nat.le_of_not_lt hs) ((ih acc).1)
      · by_cases hs : s > acc.2
        · rw [if_pos hs]
          exact (ih _).2 y hy'
        · rw [if_neg hs]
          exact (ih _).2 y hy'

/-- Claim C7 as amended: without an exact match, detection equals the
spec's pure score comparison — the highest-scoring candidate wins (type
A scores by keyword length, type B by column length over 2 characters),
the first field in registry iteration order wins ties, and no positive
candidate yields "Ignore". Between two overlapping keywords the longer
one therefore outranks the shorter, but a third field holding an even
higher-scoring candidate wins instead (see the counterexample), so
"always returns the field of the longer keyword" holds only when that
keyword attains the maximum score. -/
theorem detector_scoring (col : String)
    (hne : ∀ p ∈ STANDARD_FIELDS, ∀ kw ∈ p.2, strStrip (strLower col) ≠ strLower kw) :
    detect_standard_field col = detectSpec col ∧
    (candidates (strStrip (strLower col)) = [] → detect_standard_field col = "Ignore") ∧
    (∀ x ∈ candidates (strStrip (strLower col)),
      x.2 ≤ (bestCandidate (candidates (strStrip (strLower col))) ("Ignore", 0)).2) := by
  have hmain : detect_standard_field col = detectSpec col := by
    unfold detect_standard_field detectSpec
    by_cases hcol : (col == "") = true
    · rw [if_pos hcol, if_pos hcol]
    · rw [if_neg hcol, if_neg hcol]
      exact detectGo_no_exact _ STANDARD_FIELDS _ hne
  refine ⟨hmain, ?_, fun x hx => (bestCandidate_max _ _).2 x hx⟩
  intro hcand
  rw [hmain]
  unfold detectSpec
  by_cases hcol : (col == "") = true
  · rw [if_pos hcol]
  · rw [if_neg hcol, hcand]
    rfl

/-- Witness for C7's amended claim: "validity" (candidates "id" of
SaleID, score 2, and "valid" of IsValid, score 5; no exact match) is
detected per the score fold, yielding IsValid. -/
theorem detector_scoring_witness :
    detect_standard_field "validity" = detectSpec "validity" ∧
    detectSpec "validity" = "IsValid" :=
  ⟨(detector_scoring "validity" (by decide)).1, by decide⟩

/-- Counterexample to claim C8: when a CustomerName column contains a
denylisted value, that cleaner run appends two log entries (the removal
entry plus the unconditional trim entry), not exactly one. -/
theorem customer_name_cleaner_double_log :
    (customerNameLogs ["double clean"]).length = 2 ∧
    (customerNameLogs ["double clean"]).length ≠ 1 := by
  decide

/-- Claim C8 as amended: every cleaner of the coercion battery appends
exactly one log entry whenever it runs — except the CustomerName
cleaner, which appends two (an extra removal entry) exactly when a
stripped value case-insensitively contains a denylisted token. -/
theorem cleaner_log_counts (field label : String) (vals : List String)
    (auto : String → Option Int) (fmts : List (String → Option Int)) (today : Int) :
    (numericFieldLogs field label vals).length = 1 ∧
    (ageLogs vals).length = 1 ∧
    (dateFieldLogs field auto fmts today vals).length = 1 ∧
    productNameLogs.length = 1 ∧
    (locationFieldLogs field label).length = 1 ∧
    phoneLogs.length = 1 ∧
    emailLogs.length = 1 ∧
    (statusFieldLogs field label).length = 1 ∧
    isValidLogs.length = 1 ∧
    (textNoteFieldLogs field label).length = 1 ∧
    (customerNameLogs vals).length =
      (if 0 < ((vals.map strStrip).filter fun v =>
          strContainsSub (strLower v) "double clean").length then 2 else 1) := by
  refine ⟨?_, ?_, ?_, rfl, rfl, rfl, rfl, rfl, rfl, rfl, ?_⟩
  · unfold numericFieldLogs
    by_cases h1 : field ∈ financial_fields
    · by_cases h2 : 0 < ((cleanNumericColumn vals).filter Option.isNone).length
      · simp [h1, h2]
      · simp [h1, h2]
    · simp [h1]
  · unfold ageLogs
    by_cases h : 0 < ((vals.map toNumeric).filter fun o =>
        match o with
        | some a => decide (a < (0 : Dec)) || decide ((150 : Dec) < a)
        | none => false).length
    · simp [h]
    · simp [h]
  · unfold dateFieldLogs
    by_cases h : vals.length >
        ((cleanDateColumn auto fmts today vals).filter Option.isSome).length
    · simp [h]
    · simp [h]
  · unfold customerNameLogs
    by_cases h : 0 < ((vals.map strStrip).filter fun v =>
        strContainsSub (strLower v) "double clean").length
    · simp [h]
    · simp [h]

/-- Witness for C8's amended claim on a CustomerName column with no
denylisted value (and a Quantity-style numeric column log). -/
theorem cleaner_log_counts_witness :
    (numericFieldLogs "Quantity" "数量" ["3", "x"]).length = 1 ∧
    (customerNameLogs ["Alice"]).length = 1 :=
  ⟨(cleaner_log_counts "Quantity" "数量" ["3", "x"] (fun _ => none) [] 0).1,
   ((cleaner_log_counts "Quantity" "数量" ["Alice"] (fun _ => none) [] 0).2.2.2.2.2.2.2.2.2.2).trans
    (by decide)⟩

end InfoPipeline
